import Mathlib

/-!
Shallow embedding of the ephemeral resource lifecycle and admission-control
subsystem of the voice-pdf-assistant backend
(`src/backend/app/utils/file_manager.py`,
`src/backend/app/middleware/rate_limiter.py`,
`src/backend/app/utils/scheduler.py`, and the download endpoint of
`src/backend/app/main.py`), together with theorems settling the frozen
claims about it.

Modelling conventions:
* Python strings are Lean `String` / `List Char`; byte contents are
  `List Nat`; wall-clock instants are `Int` (seconds).
* The dynamically typed values that can sit in a metadata dict under
  `created_at` (an ISO-format string, produced by
  `datetime.utcnow().isoformat()`) and the `datetime` cutoff used by the
  sweep are both embedded as `PyVal`; Python's `<` on mismatched types
  raises `TypeError`, which the embedding models in `pyLt`.
* The metadata dict `self.metadata : Dict[str, Dict]` is an association
  list with dict semantics (lookup by key; `del` removes the key).
  The filesystem is an association list from path to stored bytes.
* Fallible Python code returns `Except PyError _`; a bare `raise` inside a
  `try` block corresponds to the `.error` branch being handled by the
  caller's `match`.
* Filesystem faults that the code can encounter (`write_bytes` failing,
  `unlink` raising) are injected as explicit boolean oracle parameters.
-/

deriving instance DecidableEq for Except

namespace VoicePdf

/-- Python exception classes that the embedded code can raise. -/
inductive PyError where
  | valueError
  | typeError
  | osError
  deriving DecidableEq, Repr

/-- Dynamically typed Python value: either a `str` or a `datetime`.
These are the two types that meet in the sweep's `created_at < cutoff_time`
comparison. -/
inductive PyVal where
  | str (s : String)
  | dt (t : Int)
  deriving DecidableEq, Repr

/-- Python truthiness for the values above: a string is truthy iff
nonempty, a `datetime` is always truthy. -/
def pyTruthy : PyVal → Bool
  | .str s => s ≠ ""
  | .dt _ => true

/-- Python `<` between dynamically typed values.  Comparing a `str` with a
`datetime` (either way) raises `TypeError`, exactly as CPython does. -/
def pyLt : PyVal → PyVal → Except PyError Bool
  | .str a, .str b => .ok (decide (a < b))
  | .dt a, .dt b => .ok (decide (a < b))
  | _, _ => .error .typeError

/-- Model of `datetime.isoformat()` applied to the instant `t` : an opaque
nonempty string encoding of the time.  The sweep never successfully parses
or compares it (the comparison raises first), so only nonemptiness and
injectivity in `t` matter. -/
def isoformat (t : Int) : String :=
  "1970-01-01T" ++ toString t

/-- One metadata entry, mirroring the dict stored in
`FileManager.metadata[file_id]` (file_manager.py lines 79-86). -/
structure Meta where
  filename : String
  path : String
  mimeType : String
  sizeBytes : Nat
  createdAt : PyVal
  ftype : String
  deriving DecidableEq, Repr

/-- Combined state of a `FileManager` and the disk: the in-memory metadata
dict, and the set of files on disk (path together with the bytes stored
there). -/
structure FMState where
  metadata : List (String × Meta)
  fs : List (String × List Nat)
  deriving DecidableEq, Repr

/-- Dict lookup `self.metadata.get(file_id)`. -/
def lookupMeta (st : FMState) (fileId : String) : Option Meta :=
  (st.metadata.find? (fun p => p.1 = fileId)).map (·.2)

/-- Disk lookup: the bytes at `path`, when a file exists there. -/
def lookupFs (st : FMState) (path : String) : Option (List Nat) :=
  (st.fs.find? (fun p => p.1 = path)).map (·.2)

/-- Model of `Path(path).exists()` against the modelled disk. -/
def pathExists (st : FMState) (path : String) : Bool :=
  (lookupFs st path).isSome

/-- Dict deletion `del self.metadata[file_id]`: the key is removed from the dict. -/
def metaErase (md : List (String × Meta)) (fileId : String) :
    List (String × Meta) :=
  md.filter (fun p => p.1 ≠ fileId)

/-- Dict assignment `self.metadata[file_id] = entry`. -/
def metaInsert (md : List (String × Meta)) (fileId : String) (m : Meta) :
    List (String × Meta) :=
  (fileId, m) :: md.filter (fun p => p.1 ≠ fileId)

/-- Model of `path.write_bytes(content)`: creates or overwrites the file. -/
def fsWrite (fs : List (String × List Nat)) (path : String)
    (content : List Nat) : List (String × List Nat) :=
  (path, content) :: fs.filter (fun p => p.1 ≠ path)

/-- Model of a successful `path.unlink()` on the modelled disk (the success case). -/
def fsErase (fs : List (String × List Nat)) (path : String) :
    List (String × List Nat) :=
  fs.filter (fun p => p.1 ≠ path)

/-- Embeds `FileManager.get_file_path` (file_manager.py lines 135-151): raises
`ValueError` when the id has no live metadata entry, otherwise returns the
stored path.  It does not consult the disk. -/
def get_file_path (st : FMState) (fileId : String) : Except PyError String :=
  match lookupMeta st fileId with
  | none => .error .valueError
  | some m => .ok m.path

/-- Embeds `FileManager.get_file_info` (lines 153-166): raises `ValueError` when
the id is unknown, otherwise returns a copy of the metadata entry. -/
def get_file_info (st : FMState) (fileId : String) : Except PyError Meta :=
  match lookupMeta st fileId with
  | none => .error .valueError
  | some m => .ok m

/-- Embeds `FileManager.file_exists` (lines 168-182): known id whose stored path
exists on disk. -/
def file_exists (st : FMState) (fileId : String) : Bool :=
  match lookupMeta st fileId with
  | none => false
  | some m => pathExists st m.path

/-- Body of `FileManager.delete_file` (lines 191-198) without the
enclosing `try/except`: looks the id up, unlinks the file if present on
disk, then deletes the metadata entry.  `unlinkFault` injects the
possibility that `unlink` raises (e.g. a permission error); in that case
the exception escapes before `del self.metadata[file_id]` runs, so the
body leaves the state unchanged. -/
def deleteFileExc (st : FMState) (fileId : String) (unlinkFault : Bool) :
    Except PyError FMState :=
  match lookupMeta st fileId with
  | none => .ok st
  | some m =>
    if pathExists st m.path then
      if unlinkFault then .error .osError
      else .ok { metadata := metaErase st.metadata fileId,
                 fs := fsErase st.fs m.path }
    else .ok { metadata := metaErase st.metadata fileId, fs := st.fs }

/-- Embeds `FileManager.delete_file` (lines 184-200): the body above wrapped in
`try/except Exception`, which logs and swallows any failure, leaving the
pre-call state in place. -/
def delete_file (st : FMState) (fileId : String) (unlinkFault : Bool) :
    FMState :=
  match deleteFileExc st fileId unlinkFault with
  | .ok st' => st'
  | .error _ => st

/-! ### Filename sanitization (`FileManager._sanitize_filename`, lines 258-281)

`Path(filename).name` (pathlib, POSIX flavour) splits on `'/'`, drops empty
and `"."` components, and keeps the last remaining component.  Then each
entry of `dangerous_chars = ['..', '/', '\\', '\x00']` is replaced by `'_'`
with Python `str.replace` semantics (left-to-right, non-overlapping).
Names longer than 255 characters are truncated via `os.path.splitext`:
the stem is cut to 250 characters and the extension re-appended.  An empty
result falls back to `"document.pdf"`. -/

/-- Split a character list on `'/'` (the pieces between separators,
including empty pieces). -/
def splitSlash : List Char → List (List Char)
  | [] => [[]]
  | c :: rest =>
    match splitSlash rest with
    | [] => [[]]
    | h :: t => if c = '/' then [] :: h :: t else (c :: h) :: t

/-- Model of `PurePosixPath(s).name`: the last component of the path after dropping
empty and `"."` components; `[]` when nothing remains. -/
def posixName (f : List Char) : List Char :=
  (((splitSlash f).filter (fun c => c ≠ [] ∧ c ≠ ['.'])).getLast?).getD []

/-- Python `s.replace('..', '_')`: left-to-right, non-overlapping. -/
def replaceDotDot : List Char → List Char
  | [] => []
  | [c] => [c]
  | c :: c2 :: rest =>
    if c = '.' ∧ c2 = '.' then '_' :: replaceDotDot rest
    else c :: replaceDotDot (c2 :: rest)

/-- Python `s.replace(c, '_')` for a single character `c`. -/
def replaceChar (c : Char) (s : List Char) : List Char :=
  s.map (fun x => if x = c then '_' else x)

/-- Python `s.rfind(c)`: index of the last occurrence of `c`, if any. -/
def rfindIdx (c : Char) (s : List Char) : Option Nat :=
  (s.reverse.findIdx? (· = c)).map (fun i => s.length - 1 - i)

/-- Model of `os.path.splitext` (posixpath): split at the last dot, provided it
comes after the last `'/'` and some non-dot character stands between them
(so names consisting only of leading dots keep no extension). -/
def splitextList (s : List Char) : List Char × List Char :=
  match rfindIdx '.' s with
  | none => (s, [])
  | some d =>
    let start : Nat :=
      match rfindIdx '/' s with
      | none => 0
      | some p => p + 1
    let sepOk : Bool :=
      match rfindIdx '/' s with
      | none => true
      | some p => decide (p < d)
    if sepOk then
      if ((s.drop start).take (d - start)).any (fun x => x ≠ '.') then
        (s.take d, s.drop d)
      else (s, [])
    else (s, [])

/-- The replacement phase of `_sanitize_filename`: take the pathlib name,
then replace each entry of `dangerous_chars = ['..', '/', '\\', '\x00']`
in order. -/
def sanitizeCore (f : List Char) : List Char :=
  replaceChar (Char.ofNat 0)
    (replaceChar '\\' (replaceChar '/' (replaceDotDot (posixName f))))

/-- Stage of `_sanitize_filename` before the empty-name fallback: names longer than
255 characters keep their `splitext` extension but have the stem cut to
250 characters. -/
def sanitizePre (f : List Char) : List Char :=
  let n4 := sanitizeCore f
  if 255 < n4.length then
    (splitextList n4).1.take 250 ++ (splitextList n4).2
  else n4

/-- Embeds `FileManager._sanitize_filename` on character lists. -/
def sanitizeList (f : List Char) : List Char :=
  if sanitizePre f = [] then "document.pdf".toList else sanitizePre f

/-- Two adjacent dots somewhere in the list — i.e. the string contains the
substring `".."`. -/
def hasDotDot : List Char → Bool
  | [] => false
  | [_] => false
  | c :: c2 :: rest => (c = '.' && c2 = '.') || hasDotDot (c2 :: rest)

/-- Embeds `FileManager._sanitize_filename` on strings. -/
def sanitize_filename (f : String) : String :=
  String.mk (sanitizeList f.toList)

/-- Model of `PurePosixPath(s).suffix`: last-dot extension of the pathlib name,
empty when the dot is leading or trailing. -/
def pathSuffix (s : List Char) : List Char :=
  let n := posixName s
  match rfindIdx '.' n with
  | none => []
  | some i => if 0 < i ∧ i + 1 < n.length then n.drop i else []

/-! ### `FileManager.save_upload` (lines 49-93)

The unique id (`uuid.uuid4()`), the clock, and the success of
`write_bytes` are oracle parameters.  The uploads directory is modelled as
the path namespace `"uploads/"`. -/

/-- The extension used for the stored file:
`Path(safe_filename).suffix or ".pdf"` where `safe_filename` is the
sanitized caller-supplied name (lines 68-69). -/
def suffixOrPdf (original : String) : String :=
  if (pathSuffix (sanitizeList original.toList)).isEmpty then ".pdf"
  else String.mk (pathSuffix (sanitizeList original.toList))

/-- The on-disk location chosen by `save_upload` (line 72):
`uploads_dir / f"{file_id}{file_extension}"`. -/
def uploadPathOf (fileId : String) (original : String) : String :=
  "uploads/" ++ fileId ++ suffixOrPdf original

/-- The metadata entry inserted by `save_upload` (lines 79-86). -/
def uploadMeta (content : List Nat) (original : String) (fileId : String)
    (now : Int) : Meta :=
  { filename := sanitize_filename original,
    path := uploadPathOf fileId original,
    mimeType := "application/pdf",
    sizeBytes := content.length,
    createdAt := .str (isoformat now),
    ftype := "upload" }

/-- Embeds `FileManager.save_upload`: write the bytes to the id-derived path,
then insert the metadata entry.  When the write raises, the enclosing
`try/except` re-raises `ValueError` and nothing has been recorded. -/
def save_upload (st : FMState) (content : List Nat) (original : String)
    (fileId : String) (now : Int) (writeOk : Bool) :
    Except PyError (String × FMState) :=
  let path := uploadPathOf fileId original
  if writeOk then
    let st1 : FMState := { st with fs := fsWrite st.fs path content }
    let st2 : FMState :=
      { st1 with metadata :=
          metaInsert st1.metadata fileId (uploadMeta content original fileId now) }
    .ok (fileId, st2)
  else .error .valueError

/-- The sequence of states a concurrent reader can observe during a
`save_upload` call: the initial state, the state after the file write
completes, and the state after the metadata insert (the insert happens
under the lock, after the write — lines 75-86).  A failed write leaves
only the initial state observable. -/
def saveUploadStates (st : FMState) (content : List Nat) (original : String)
    (fileId : String) (now : Int) (writeOk : Bool) : List FMState :=
  let path := uploadPathOf fileId original
  if writeOk then
    let st1 : FMState := { st with fs := fsWrite st.fs path content }
    let st2 : FMState :=
      { st1 with metadata :=
          metaInsert st1.metadata fileId (uploadMeta content original fileId now) }
    [st, st1, st2]
  else [st]

/-! ### Sweep (`FileManager.cleanup_old_files`, lines 229-256)

`cutoff_time = datetime.now() - timedelta(hours=hours)` is a `datetime`;
each entry's `created_at` is the ISO-format *string* stored by
`save_upload`/`save_result`.  The guard
`if created_at and created_at < cutoff_time` first tests truthiness, then
compares with Python `<` — which raises `TypeError` on a `str`/`datetime`
pair.  The whole loop sits in a `try` whose `except` returns `0`. -/

/-- The `for file_id in list(self.metadata.keys())` loop body, threading
the state and short-circuiting when the comparison raises.  Deletions made
before an exception persist (Python `try` does not roll back). -/
def cleanupLoop (cutoff : PyVal) : List String → FMState → Nat →
    FMState × Except PyError Nat
  | [], st, n => (st, .ok n)
  | fileId :: rest, st, n =>
    match lookupMeta st fileId with
    | none => cleanupLoop cutoff rest st n
    | some m =>
      if pyTruthy m.createdAt then
        match pyLt m.createdAt cutoff with
        | .error e => (st, .error e)
        | .ok true => cleanupLoop cutoff rest (delete_file st fileId false) (n + 1)
        | .ok false => cleanupLoop cutoff rest st n
      else cleanupLoop cutoff rest st n

/-- Embeds `FileManager.cleanup_old_files(hours)`: sweep all live artifacts,
deleting those whose `created_at` precedes the cutoff; any exception is
caught and `0` returned. -/
def cleanup_old_files (st : FMState) (now : Int) (hours : Nat) :
    FMState × Nat :=
  let cutoff : PyVal := .dt (now - hours * 3600)
  match cleanupLoop cutoff (st.metadata.map (·.1)) st 0 with
  | (st', .ok n) => (st', n)
  | (st', .error _) => (st', 0)

/-! ### Scheduled deletion (`FileManager.schedule_cleanup`, lines 202-211)

`schedule_cleanup` is `await asyncio.sleep(delay_seconds)` followed by
`self.delete_file(file_id)`.  Each invocation is its own coroutine; the
event loop's set of sleeping `schedule_cleanup` coroutines is modelled as
a list of `(file_id, absolute fire time)` entries, and the passage of time
fires every entry whose deadline has been reached. -/

/-- Spawning `schedule_cleanup(file_id, delay)` at time `now` adds one
pending deferred deletion that fires at `now + delay`. -/
def schedule_cleanup (pend : List (String × Int)) (fileId : String)
    (now : Int) (delay : Int) : List (String × Int) :=
  pend ++ [(fileId, now + delay)]

/-- Advance the event loop to time `now`: every pending deferred deletion
whose fire time has passed wakes and runs `delete_file`; the rest stay
pending.  Returns the state after the fired deletions and the still
pending entries. -/
def fireDue : List (String × Int) → FMState → Int →
    FMState × List (String × Int)
  | [], st, _ => (st, [])
  | (fileId, ft) :: rest, st, now =>
    if ft ≤ now then
      fireDue rest (delete_file st fileId false) now
    else
      let r := fireDue rest st now
      (r.1, (fileId, ft) :: r.2)

/-! ### Rate limiter (`RateLimiter`, rate_limiter.py lines 14-75)

`self.requests` is a `defaultdict(list)` from client ip to a list of
`datetime` timestamps, modelled as an association list defaulting to `[]`.
Only the general-policy table is needed by the claims; the upload table is
structurally identical. -/

/-- Per-identity request-timestamp table (`self.requests`). -/
def RLState := List (String × List Int)

/-- Defaultdict read `self.requests[ip]`. -/
def getIp (st : RLState) (ip : String) : List Int :=
  ((List.find? (fun p => p.1 = ip) st).map (·.2)).getD []

/-- Dict assignment `self.requests[ip] = l`. -/
def setIp (st : RLState) (ip : String) (l : List Int) : RLState :=
  (ip, l) :: List.filter (fun p => p.1 ≠ ip) st

/-- Embeds `RateLimiter._clean_old_requests` (lines 21-27): keep only the
timestamps strictly newer than `now - window_seconds`. -/
def cleanOld (now : Int) (windowSeconds : Nat) (l : List Int) : List Int :=
  l.filter (fun t => now - windowSeconds < t)

/-- Embeds `RateLimiter.is_allowed` (lines 37-55): prune, then reject without
recording when the pruned count has reached the limit, else record `now`
and accept. -/
def is_allowed (st : RLState) (ip : String) (now : Int)
    (maxRequests windowSeconds : Nat) : Bool × RLState :=
  let st1 := setIp st ip (cleanOld now windowSeconds (getIp st ip))
  if maxRequests ≤ (getIp st1 ip).length then
    (false, st1)
  else
    (true, setIp st1 ip (getIp st1 ip ++ [now]))

/-! ### Reclamation loop (`CleanupScheduler`, scheduler.py lines 15-65)

The loop task is
`while self.is_running: await asyncio.sleep(interval); await self._run_cleanup()`.
Its control state is a program counter: about to test the `while`
condition, sleeping, or about to run a sweep; `start`/`stop` flip
`is_running` from outside.  `sweeps` counts executed `_run_cleanup` calls. -/

/-- Program counter of the `_cleanup_loop` task. -/
inductive LoopPC where
  | check
  | sleeping
  | sweeping
  | done
  deriving DecidableEq, Repr

/-- State of a `CleanupScheduler` together with its (single) loop task. -/
structure SchedState where
  is_running : Bool
  pc : LoopPC
  sweeps : Nat
  deriving DecidableEq, Repr

/-- One step of the loop task: the `while` test either enters the body or
exits; a sleeping task wakes into the sweep; the sweep runs and returns to
the `while` test. -/
def loopStep (s : SchedState) : SchedState :=
  match s.pc with
  | .check => if s.is_running then { s with pc := .sleeping } else { s with pc := .done }
  | .sleeping => { s with pc := .sweeping }
  | .sweeping => { s with pc := .check, sweeps := s.sweeps + 1 }
  | .done => s

/-- Run the loop task for `n` steps. -/
def loopRun : Nat → SchedState → SchedState
  | 0, s => s
  | n + 1, s => loopRun n (loopStep s)

/-- Embeds `CleanupScheduler.start` (lines 24-33): returns immediately when
already running, otherwise sets the flag and spawns the loop task at its
`while` test. -/
def schedStart (s : SchedState) : SchedState :=
  if s.is_running then s else { s with is_running := true, pc := .check }

/-- Embeds `CleanupScheduler.stop` (lines 35-38): clears the flag; the task keeps
whatever program position it had. -/
def schedStop (s : SchedState) : SchedState :=
  { s with is_running := false }

/-! ### Download endpoint (`main.py`, `download_file`, lines 260-300)

`get_file_path` raising `ValueError` (unknown id) is caught by the
endpoint's blanket `except Exception` and surfaces as HTTP 500; a known id
whose file is absent from disk raises `HTTPException(404)`, which the
`except HTTPException: raise` arm re-raises unchanged. -/

/-- Successful download response: path, display filename, media type. -/
structure DownloadResp where
  path : String
  filename : String
  mimeType : String
  deriving DecidableEq, Repr

/-- The `download_file` endpoint; errors carry the HTTP status code and
detail string. -/
def download_file (st : FMState) (fileId : String) :
    Except (Nat × String) DownloadResp :=
  match get_file_path st fileId with
  | .error _ =>
    .error (500, "Failed to download file: File not found: " ++ fileId)
  | .ok path =>
    if pathExists st path then
      match get_file_info st fileId with
      | .error _ =>
        .error (500, "Failed to download file: File not found: " ++ fileId)
      | .ok m => .ok ⟨path, m.filename, m.mimeType⟩
    else
      .error (404, "File not found or has expired: " ++ fileId)

/-- HTTP status code observed by the caller of the download endpoint. -/
def downloadStatus (st : FMState) (fileId : String) : Nat :=
  match download_file st fileId with
  | .error e => e.1
  | .ok _ => 200

/-! ### Concrete fixtures used by witnesses and counterexamples -/

/-- A typical upload metadata entry, created at instant 0. -/
def mDoc : Meta :=
  { filename := "doc.pdf", path := "uploads/f1.pdf",
    mimeType := "application/pdf", sizeBytes := 3,
    createdAt := .str (isoformat 0), ftype := "upload" }

/-- One live artifact whose bytes are on disk. -/
def stOne : FMState :=
  { metadata := [("f1", mDoc)], fs := [("uploads/f1.pdf", [1, 2, 3])] }

/-- A live metadata entry whose underlying file is missing from disk. -/
def stGhost : FMState :=
  { metadata := [("f1", mDoc)], fs := [] }

/-- A 264-character filename: 249 `'a'`s, a dot, 10 `'b'`s, then `".pdf"`.
Long enough to trigger the truncation branch of `_sanitize_filename`, with
the 250th stem character being the dot. -/
def cexName : String :=
  String.mk (List.replicate 249 'a' ++ '.' :: (List.replicate 10 'b' ++ ".pdf".toList))

/-- After `del self.metadata[file_id]`, a dict lookup for that key misses. -/
theorem find?_metaErase (md : List (String × Meta)) (fileId : String) :
    ((metaErase md fileId).find? (fun p => p.1 = fileId)) = none := by
  simp only [metaErase]
  rw [List.find?_filter]
  simp

/-- Whatever branch `delete_file` takes (successfully or not), a fault-free
call leaves no metadata entry for the id. -/
theorem lookupMeta_delete_file (st : FMState) (fileId : String) :
    lookupMeta (delete_file st fileId false) fileId = none := by
  unfold delete_file deleteFileExc
  cases h : lookupMeta st fileId with
  | none => simp [h]
  | some m =>
    by_cases hp : pathExists st m.path <;>
      simp [h, hp, lookupMeta, find?_metaErase]

/-- Deleting an id with no live metadata entry leaves the state unchanged,
whatever the unlink oracle says. -/
theorem delete_file_of_unknown (st : FMState) (fileId : String) (b : Bool)
    (h : lookupMeta st fileId = none) : delete_file st fileId b = st := by
  unfold delete_file deleteFileExc
  simp [h]


theorem replaceDotDot_length_le (s : List Char) :
    (replaceDotDot s).length ≤ s.length := by
  induction s using replaceDotDot.induct with
  | case1 => simp [replaceDotDot]
  | case2 c => simp [replaceDotDot]
  | case3 c c2 rest h ih => simp [replaceDotDot, h]; omega
  | case4 c c2 rest h ih =>
    simp [replaceDotDot, h]
    simp at ih
    omega

theorem replaceDotDot_head_dot (s : List Char)
    (h : (replaceDotDot s).head? = some '.') : s.head? = some '.' := by
  match s with
  | [] => simp [replaceDotDot] at h
  | [c] => simpa [replaceDotDot] using h
  | c :: c2 :: rest =>
    by_cases hc : c = '.' ∧ c2 = '.'
    · simp [replaceDotDot, hc] at h
    · simpa [replaceDotDot, hc] using h

theorem hasDotDot_cons_ne (c : Char) (l : List Char) (hc : c ≠ '.') :
    hasDotDot (c :: l) = hasDotDot l := by
  cases l with
  | nil => simp [hasDotDot]
  | cons x xs => simp [hasDotDot, hc]

theorem hasDotDot_cons_headne (c : Char) (l : List Char)
    (h : l.head? ≠ some '.') : hasDotDot (c :: l) = hasDotDot l := by
  cases l with
  | nil => simp [hasDotDot]
  | cons x xs =>
    have hx : x ≠ '.' := by simpa using h
    simp [hasDotDot, hx]

theorem hasDotDot_replaceDotDot (s : List Char) :
    hasDotDot (replaceDotDot s) = false := by
  induction s using replaceDotDot.induct with
  | case1 => simp [replaceDotDot, hasDotDot]
  | case2 c => simp [replaceDotDot, hasDotDot]
  | case3 c c2 rest h ih =>
    rw [replaceDotDot, if_pos h, hasDotDot_cons_ne _ _ (by decide)]
    exact ih
  | case4 c c2 rest h ih =>
    rw [replaceDotDot, if_neg h]
    by_cases hc : c = '.'
    · have hhead : (replaceDotDot (c2 :: rest)).head? ≠ some '.' := by
        intro hcontra
        have h2 := replaceDotDot_head_dot _ hcontra
        simp at h2
        exact h (And.intro hc h2)
      rw [hasDotDot_cons_headne _ _ hhead]
      exact ih
    · rw [hasDotDot_cons_ne _ _ hc]
      exact ih

theorem hasDotDot_replaceChar (c : Char) (l : List Char) (hc : c ≠ '.') :
    hasDotDot (replaceChar c l) = hasDotDot l := by
  induction l using hasDotDot.induct with
  | case1 => simp [replaceChar, hasDotDot]
  | case2 x => simp [replaceChar, hasDotDot]
  | case3 x y rest ih =>
    have hfx : ∀ z : Char, ((if z = c then '_' else z) = '.') = (z = '.') := by
      intro z
      by_cases hz : z = c
      · simp [hz]
        exact hc
      · simp [hz]
    simp only [replaceChar, List.map] at ih ⊢
    simp [hasDotDot, hfx, ih]

theorem splitSlash_ne_nil (s : List Char) : splitSlash s ≠ [] := by
  cases s with
  | nil => simp [splitSlash]
  | cons c rest =>
    simp only [splitSlash]
    cases h : splitSlash rest with
    | nil => simp
    | cons x t =>
      by_cases hc : c = '/' <;> simp [hc]

theorem mem_of_getLast?_eq {l : List (List Char)} {c : List Char}
    (hl : l.getLast? = some c) : c ∈ l := by
  have hx : c ∈ l.getLast? := by simp [hl]
  obtain ⟨hne, hc⟩ := List.mem_getLast?_eq_getLast hx
  exact hc ▸ List.getLast_mem hne

theorem mem_splitSlash_length (s : List Char) (c : List Char)
    (h : c ∈ splitSlash s) : c.length ≤ s.length := by
  induction s generalizing c with
  | nil =>
    simp [splitSlash] at h
    simp [h]
  | cons a rest ih =>
    simp only [splitSlash] at h
    cases hsp : splitSlash rest with
    | nil => exact absurd hsp (splitSlash_ne_nil rest)
    | cons x t =>
      rw [hsp] at h
      dsimp only at h
      by_cases ha : a = '/'
      · rw [if_pos ha] at h
        rcases List.mem_cons.mp h with h1 | h2
        · simp [h1]
        · have := ih c (hsp ▸ h2)
          simp
          omega
      · rw [if_neg ha] at h
        rcases List.mem_cons.mp h with h1 | h2
        · have hx : x ∈ splitSlash rest := by rw [hsp]; exact List.mem_cons_self x t
          have := ih x hx
          subst h1
          simp
          omega
        · have hx : c ∈ splitSlash rest := by rw [hsp]; exact List.mem_cons_of_mem x h2
          have := ih c hx
          simp
          omega

theorem mem_splitSlash_chars (s : List Char) (c : List Char) (x : Char)
    (h : c ∈ splitSlash s) (hx : x ∈ c) : x ∈ s := by
  induction s generalizing c with
  | nil =>
    simp [splitSlash] at h
    subst h
    simp at hx
  | cons a rest ih =>
    simp only [splitSlash] at h
    cases hsp : splitSlash rest with
    | nil => exact absurd hsp (splitSlash_ne_nil rest)
    | cons y t =>
      rw [hsp] at h
      dsimp only at h
      by_cases ha : a = '/'
      · rw [if_pos ha] at h
        rcases List.mem_cons.mp h with h1 | h2
        · subst h1; simp at hx
        · exact List.mem_cons_of_mem a (ih c (hsp ▸ h2) hx)
      · rw [if_neg ha] at h
        rcases List.mem_cons.mp h with h1 | h2
        · subst h1
          rcases List.mem_cons.mp hx with h3 | h4
          · exact h3 ▸ List.mem_cons_self a rest
          · have hy : y ∈ splitSlash rest := by rw [hsp]; exact List.mem_cons_self y t
            exact List.mem_cons_of_mem a (ih y hy h4)
        · have hc : c ∈ splitSlash rest := by rw [hsp]; exact List.mem_cons_of_mem y h2
          exact List.mem_cons_of_mem a (ih c hc hx)

theorem posixName_length_le (f : List Char) :
    (posixName f).length ≤ f.length := by
  unfold posixName
  cases hl : ((splitSlash f).filter (fun c => c ≠ [] ∧ c ≠ ['.'])).getLast? with
  | none => simp
  | some c =>
    have hmem : c ∈ (splitSlash f).filter (fun c => c ≠ [] ∧ c ≠ ['.']) :=
      mem_of_getLast?_eq hl
    have : c ∈ splitSlash f := List.mem_of_mem_filter hmem
    simpa using mem_splitSlash_length f c this

theorem posixName_chars (f : List Char) (x : Char) (h : x ∈ posixName f) :
    x ∈ f := by
  unfold posixName at h
  cases hl : ((splitSlash f).filter (fun c => c ≠ [] ∧ c ≠ ['.'])).getLast? with
  | none => rw [hl] at h; simp at h
  | some c =>
    rw [hl] at h
    simp at h
    have hmem : c ∈ (splitSlash f).filter (fun c => c ≠ [] ∧ c ≠ ['.']) :=
      mem_of_getLast?_eq hl
    exact mem_splitSlash_chars f c x (List.mem_of_mem_filter hmem) h

theorem replaceChar_mem (c x : Char) (l : List Char)
    (h : x ∈ replaceChar c l) : x = '_' ∨ (x ∈ l ∧ x ≠ c) := by
  simp [replaceChar] at h
  obtain ⟨a, ha, hax⟩ := h
  by_cases hac : a = c
  · rw [if_pos hac] at hax
    exact Or.inl hax.symm
  · rw [if_neg hac] at hax
    subst hax
    exact Or.inr ⟨ha, hac⟩

theorem sanitizeCore_no_slash (f : List Char) : '/' ∉ sanitizeCore f := by
  intro h
  unfold sanitizeCore at h
  rcases replaceChar_mem _ _ _ h with h1 | ⟨h2, _⟩
  · exact absurd h1 (by decide)
  rcases replaceChar_mem _ _ _ h2 with h3 | ⟨h4, _⟩
  · exact absurd h3 (by decide)
  rcases replaceChar_mem _ _ _ h4 with h5 | ⟨_, h6⟩
  · exact absurd h5 (by decide)
  · exact h6 rfl

theorem sanitizeCore_no_backslash (f : List Char) : '\\' ∉ sanitizeCore f := by
  intro h
  unfold sanitizeCore at h
  rcases replaceChar_mem _ _ _ h with h1 | ⟨h2, _⟩
  · exact absurd h1 (by decide)
  rcases replaceChar_mem _ _ _ h2 with h3 | ⟨_, h4⟩
  · exact absurd h3 (by decide)
  · exact h4 rfl

theorem sanitizeCore_no_nul (f : List Char) : Char.ofNat 0 ∉ sanitizeCore f := by
  intro h
  unfold sanitizeCore at h
  rcases replaceChar_mem _ _ _ h with h1 | ⟨_, h2⟩
  · exact absurd h1 (by decide)
  · exact h2 rfl

theorem sanitizeCore_no_dotdot (f : List Char) :
    hasDotDot (sanitizeCore f) = false := by
  unfold sanitizeCore
  rw [hasDotDot_replaceChar _ _ (by decide), hasDotDot_replaceChar _ _ (by decide),
    hasDotDot_replaceChar _ _ (by decide)]
  exact hasDotDot_replaceDotDot _

theorem sanitizeCore_length_le (f : List Char) :
    (sanitizeCore f).length ≤ f.length := by
  unfold sanitizeCore
  simp only [replaceChar, List.length_map]
  exact le_trans (replaceDotDot_length_le _) (posixName_length_le f)

theorem mem_splitextList (s : List Char) (x : Char) :
    (x ∈ (splitextList s).1 → x ∈ s) ∧ (x ∈ (splitextList s).2 → x ∈ s) := by
  unfold splitextList
  cases rfindIdx '.' s with
  | none => simp
  | some d =>
    dsimp only
    split
    · split
      · exact ⟨fun h => List.mem_of_mem_take h, fun h => List.mem_of_mem_drop h⟩
      · simp
    · simp

theorem mem_sanitizePre (f : List Char) (x : Char) (h : x ∈ sanitizePre f) :
    x ∈ sanitizeCore f := by
  unfold sanitizePre at h
  dsimp only at h
  split at h
  · rcases List.mem_append.mp h with h1 | h2
    · exact (mem_splitextList (sanitizeCore f) x).1 (List.mem_of_mem_take h1)
    · exact (mem_splitextList (sanitizeCore f) x).2 h2
  · exact h

theorem sanitizePre_of_short (f : List Char) (h : f.length ≤ 255) :
    sanitizePre f = sanitizeCore f := by
  unfold sanitizePre
  dsimp only
  rw [if_neg]
  have := sanitizeCore_length_le f
  omega

theorem sanitizeList_ne_nil (f : List Char) : sanitizeList f ≠ [] := by
  unfold sanitizeList
  split
  · decide
  · assumption

theorem mem_sanitizeList (f : List Char) (x : Char) (h : x ∈ sanitizeList f) :
    x ∈ sanitizeCore f ∨ x ∈ "document.pdf".toList := by
  unfold sanitizeList at h
  split at h
  · exact Or.inr h
  · exact Or.inl (mem_sanitizePre f x h)

theorem toList_sanitize_filename (f : String) :
    (sanitize_filename f).toList = sanitizeList f.toList := rfl

/-- C3 (amended): for every input filename the sanitized name contains no
path separator (`'/'` or `'\\'`) and no NUL byte and is never empty,
falling back to `"document.pdf"` when sanitization leaves nothing; for
inputs of length at most 255 (where the truncation branch cannot fire) it
also contains no `".."` substring and is itself at most 255 characters
long.  The unconditional no-`".."` part of the original claim is refuted
by `sanitize_truncation_dotdot_cex` below. -/
theorem sanitize_filename_safe (f : String) :
    ('/' ∉ (sanitize_filename f).toList
     ∧ '\\' ∉ (sanitize_filename f).toList
     ∧ Char.ofNat 0 ∉ (sanitize_filename f).toList
     ∧ sanitize_filename f ≠ ""
     ∧ (sanitizePre f.toList = [] → sanitize_filename f = "document.pdf"))
    ∧ (f.length ≤ 255 →
        hasDotDot (sanitize_filename f).toList = false
        ∧ (sanitize_filename f).length ≤ 255) := by
  rw [toList_sanitize_filename]
  constructor
  · refine ⟨?_, ?_, ?_, ?_, ?_⟩
    · intro h
      rcases mem_sanitizeList _ _ h with h1 | h1
      · exact sanitizeCore_no_slash _ h1
      · exact absurd h1 (by decide)
    · intro h
      rcases mem_sanitizeList _ _ h with h1 | h1
      · exact sanitizeCore_no_backslash _ h1
      · exact absurd h1 (by decide)
    · intro h
      rcases mem_sanitizeList _ _ h with h1 | h1
      · exact sanitizeCore_no_nul _ h1
      · exact absurd h1 (by decide)
    · intro h
      have : (sanitize_filename f).toList = [] := by rw [h]; rfl
      rw [toList_sanitize_filename] at this
      exact sanitizeList_ne_nil _ this
    · intro h
      unfold sanitize_filename sanitizeList
      rw [if_pos h]
      rfl
  · intro hlen
    have hpre : sanitizePre f.toList = sanitizeCore f.toList :=
      sanitizePre_of_short _ (by simpa using hlen)
    have hcore : (sanitizeCore f.toList).length ≤ 255 :=
      le_trans (sanitizeCore_length_le _) (by simpa using hlen)
    constructor
    · unfold sanitizeList
      split
      · decide
      · rw [hpre]
        exact sanitizeCore_no_dotdot _
    · show (sanitizeList f.toList).length ≤ 255
      unfold sanitizeList
      split
      · decide
      · rw [hpre]
        exact hcore



/-! ### Helper lemmas about the rate limiter, uploads and the loop task -/

/-- Reading back the identity just written into the request table. -/
theorem getIp_setIp (st : RLState) (ip : String) (l : List Int) :
    getIp (setIp st ip l) ip = l := by
  simp [getIp, setIp, List.find?]

/-- Dict lookup right after a dict insert finds the inserted entry. -/
theorem find?_metaInsert (md : List (String × Meta)) (fileId : String) (m : Meta) :
    ((metaInsert md fileId m).find? (fun p => p.1 = fileId)).map (fun p => p.2)
      = some m := by
  simp [metaInsert, List.find?]

/-- Disk lookup right after a write finds the written bytes. -/
theorem lookupFs_fsWrite (fs : List (String × List Nat)) (path : String)
    (content : List Nat) :
    ((fsWrite fs path content).find? (fun p => p.1 = path)).map (fun p => p.2)
      = some content := by
  simp [fsWrite, List.find?]

/-- Characters of a `String.mk`. -/
theorem toList_mk (l : List Char) : (String.mk l).toList = l := rfl

/-- Every character of a pathlib suffix occurs in the argument. -/
theorem mem_pathSuffix (s : List Char) (x : Char) (h : x ∈ pathSuffix s) :
    x ∈ s := by
  simp only [pathSuffix] at h
  cases hr : rfindIdx '.' (posixName s) with
  | none => rw [hr] at h; simp at h
  | some i =>
    rw [hr] at h
    dsimp only at h
    split at h
    · exact posixName_chars s x (List.mem_of_mem_drop h)
    · simp at h

/-- The stored extension is either the default `".pdf"` or exactly the
sanitized name's pathlib suffix. -/
theorem suffixOrPdf_spec (f : String) :
    suffixOrPdf f = ".pdf"
    ∨ (suffixOrPdf f).toList = pathSuffix (sanitizeList f.toList) := by
  unfold suffixOrPdf
  split
  · exact Or.inl rfl
  · exact Or.inr (toList_mk _)

/-- Every character of the stored extension comes from the sanitized name
or from the literal `".pdf"`. -/
theorem suffixOrPdf_chars (f : String) (x : Char)
    (h : x ∈ (suffixOrPdf f).toList) :
    x ∈ sanitizeList f.toList ∨ x ∈ ".pdf".toList := by
  rcases suffixOrPdf_spec f with hc | hc
  · rw [hc] at h
    exact Or.inr h
  · rw [hc] at h
    exact Or.inl (mem_pathSuffix _ x h)

/-- A finished loop task does not move. -/
theorem loopStep_done (s : SchedState) (h : s.pc = .done) : loopStep s = s := by
  simp [loopStep, h]

/-- A finished loop task stays finished. -/
theorem loopRun_done (n : Nat) (s : SchedState) (h : s.pc = .done) :
    loopRun n s = s := by
  induction n generalizing s with
  | zero => rfl
  | succ k ih =>
    show loopRun k (loopStep s) = s
    rw [loopStep_done s h]
    exact ih s h

/-- Splitting a run of the loop task. -/
theorem loopRun_add (a b : Nat) (s : SchedState) :
    loopRun (a + b) s = loopRun b (loopRun a s) := by
  induction a generalizing s with
  | zero => simp [loopRun]
  | succ k ih =>
    have hh : k + 1 + b = (k + b) + 1 := by omega
    rw [hh]
    show loopRun (k + b) (loopStep s) = loopRun b (loopRun (k + 1) s)
    rw [ih (loopStep s)]
    rfl

/-- Once the running flag is cleared, the loop task finishes within three
steps, whatever it was doing. -/
theorem loopRun3_done (s : SchedState) (h : s.is_running = false) :
    (loopRun 3 s).pc = .done := by
  obtain ⟨r, pc, k⟩ := s
  simp only at h
  subst h
  cases pc <;> simp [loopRun, loopStep]

/-- Once the running flag is cleared, at most one further sweep happens in
the next three steps. -/
theorem loopRun3_sweeps (s : SchedState) (h : s.is_running = false) :
    (loopRun 3 s).sweeps ≤ s.sweeps + 1 := by
  obtain ⟨r, pc, k⟩ := s
  simp only at h
  subst h
  cases pc <;> simp [loopRun, loopStep]

/-- Once the running flag is cleared, at most one further sweep ever
happens. -/
theorem loopRun_sweeps_le (s : SchedState) (h : s.is_running = false) (n : Nat) :
    (loopRun n s).sweeps ≤ s.sweeps + 1 := by
  rcases Nat.lt_or_ge n 3 with hn | hn
  · interval_cases n <;>
      (obtain ⟨r, pc, k⟩ := s
       simp only at h
       subst h
       cases pc <;> simp [loopRun, loopStep])
  · obtain ⟨m, rfl⟩ : ∃ m, n = 3 + m := ⟨n - 3, by omega⟩
    rw [loopRun_add, loopRun_done m _ (loopRun3_done s h)]
    exact loopRun3_sweeps s h

/-- Once the running flag is cleared, the loop task is inert after three
steps. -/
theorem loopRun_stable (s : SchedState) (h : s.is_running = false)
    (n : Nat) (hn : 3 ≤ n) : loopRun n s = loopRun 3 s := by
  obtain ⟨m, rfl⟩ : ∃ m, n = 3 + m := ⟨n - 3, by omega⟩
  rw [loopRun_add, loopRun_done m _ (loopRun3_done s h)]

/-! ### Claim theorems -/

/-- C1 (code bug): one pass of `cleanup_old_files` over a state holding a
single live artifact created at instant 0, run two hours later with a
one-hour threshold, deletes nothing and returns 0 — the artifact's age
exceeds the threshold, yet the `created_at < cutoff_time` comparison of an
ISO string against a `datetime` raises `TypeError`, which the blanket
`except` turns into the return value 0.  The claim (and the function's own
docstring) say the artifact is deleted and counted. -/
theorem cleanup_sweep_typeerror_deletes_nothing :
    cleanup_old_files stOne 7200 1 = (stOne, 0)
    ∧ cleanupLoop (.dt (7200 - 1 * 3600)) (stOne.metadata.map (fun p => p.1)) stOne 0
        = (stOne, .error .typeError)
    ∧ pyTruthy mDoc.createdAt = true
    ∧ file_exists stOne "f1" = true := by decide

/-- C2 (counterexample): registering a 10-second expiry for `"f1"` at time
0 and then re-registering a 100-second expiry does not replace the first
deadline: advancing the event loop to time 50 — before the most recently
registered deadline — fires the first deferred deletion and the artifact
is gone (`get_file_path` fails), contradicting "only the most recently
registered deadline determines when the deferred Delete fires". -/
theorem schedule_cleanup_no_replace_cex :
    ((50 : Int) < 0 + 100)
    ∧ get_file_path stOne "f1" = .ok "uploads/f1.pdf"
    ∧ get_file_path
        (fireDue (schedule_cleanup (schedule_cleanup [] "f1" 0 10) "f1" 0 100) stOne 50).1
        "f1" = .error .valueError := by decide

/-- C2 (amended): re-registering an expiry for the same id adds a second
pending deferred deletion rather than replacing the first; both deadlines
stay pending, and at any instant between the two deadlines the earlier one
has already fired and deleted the artifact, while the later one is still
pending (its eventual firing is an idempotent no-op). -/
theorem schedule_cleanup_adds_second_pending (pend : List (String × Int))
    (st : FMState) (fileId : String) (now d1 d2 tq : Int)
    (h1 : now + d1 ≤ tq) (h2 : tq < now + d2) :
    schedule_cleanup (schedule_cleanup pend fileId now d1) fileId now d2
      = pend ++ [(fileId, now + d1), (fileId, now + d2)]
    ∧ fireDue [(fileId, now + d1), (fileId, now + d2)] st tq
        = (delete_file st fileId false, [(fileId, now + d2)])
    ∧ get_file_path (delete_file st fileId false) fileId = .error .valueError := by
  refine ⟨by simp [schedule_cleanup], ?_, ?_⟩
  · have hn2 : ¬ (now + d2 ≤ tq) := by omega
    simp [fireDue, h1, hn2]
  · simp [get_file_path, lookupMeta_delete_file]

/-- Witness for C2's amended theorem at `pend = []`, deadlines 10 and 100,
queried at time 50. -/
theorem schedule_cleanup_adds_second_pending_witness :
    schedule_cleanup (schedule_cleanup [] "f1" 0 10) "f1" 0 100
      = [] ++ [("f1", (0 : Int) + 10), ("f1", (0 : Int) + 100)]
    ∧ fireDue [("f1", (0 : Int) + 10), ("f1", (0 : Int) + 100)] stOne 50
        = (delete_file stOne "f1" false, [("f1", (0 : Int) + 100)])
    ∧ get_file_path (delete_file stOne "f1" false) "f1" = .error .valueError :=
  schedule_cleanup_adds_second_pending [] stOne "f1" 0 10 100 50
    (by decide) (by decide)

set_option maxRecDepth 4000 in
/-- C3 (counterexample): a 264-character name whose 250th stem character is
a dot defeats the sanitizer: the truncation step glues the stem's trailing
dot to the extension's leading dot, so the sanitized output contains
`".."`, refuting the unconditional "contains no `..` substring". -/
theorem sanitize_truncation_dotdot_cex :
    hasDotDot (sanitize_filename cexName).toList = true
    ∧ (255 : Nat) < cexName.length := by decide

/-- Witness for C3's amended theorem: a traversal attempt and the empty
name, both within the no-truncation regime. -/
theorem sanitize_filename_safe_witness :
    (Char.ofNat 0 ∉ (sanitize_filename "../../etc/passwd").toList
      ∧ sanitize_filename "../../etc/passwd" ≠ "")
    ∧ (hasDotDot (sanitize_filename "../../etc/passwd").toList = false
      ∧ (sanitize_filename "../../etc/passwd").length ≤ 255)
    ∧ sanitize_filename "" = "document.pdf" := by
  refine ⟨⟨(sanitize_filename_safe "../../etc/passwd").1.2.2.1,
    (sanitize_filename_safe "../../etc/passwd").1.2.2.2.1⟩,
    (sanitize_filename_safe "../../etc/passwd").2 (by decide),
    (sanitize_filename_safe "").1.2.2.2.2 (by decide)⟩

/-- C4: after a (fault-free) `delete_file`, both `get_file_path` and
`get_file_info` fail with the not-found `ValueError`; a second
`delete_file` on the same id returns the state unchanged rather than
erring, and deleting an id that never existed is likewise a no-op. -/
theorem delete_file_isolation (st : FMState) (fileId : String) (b : Bool) :
    get_file_path (delete_file st fileId false) fileId = .error .valueError
    ∧ get_file_info (delete_file st fileId false) fileId = .error .valueError
    ∧ delete_file (delete_file st fileId false) fileId b = delete_file st fileId false
    ∧ (lookupMeta st fileId = none → delete_file st fileId b = st) := by
  have h := lookupMeta_delete_file st fileId
  refine ⟨?_, ?_, ?_, fun hn => delete_file_of_unknown st fileId b hn⟩
  · simp [get_file_path, h]
  · simp [get_file_info, h]
  · exact delete_file_of_unknown _ _ _ h

/-- Witness for C4 on the empty store and an id that never existed. -/
theorem delete_file_isolation_witness :
    get_file_path (delete_file ⟨[], []⟩ "f1" false) "f1" = .error .valueError
    ∧ delete_file ⟨[], []⟩ "f1" true = ⟨[], []⟩ := by
  refine ⟨(delete_file_isolation ⟨[], []⟩ "f1" true).1,
    (delete_file_isolation ⟨[], []⟩ "f1" true).2.2.2 rfl⟩

/-- C5: each `is_allowed` call first prunes the identity's timestamps to
those strictly inside the window; it accepts exactly when the pruned count
is below the limit, recording `now` at the end of the sequence, and
rejects without recording otherwise.  Concretely, with a limit of 3 per
60-second window, three immediate calls accept, a fourth immediate call
rejects, and a call after the window has elapsed accepts again. -/
theorem is_allowed_spec :
    (∀ (st : RLState) (ip : String) (now : Int) (maxRequests windowSeconds : Nat),
      (∀ t ∈ getIp st ip,
        (t ∈ cleanOld now windowSeconds (getIp st ip) ↔ now - windowSeconds < t))
      ∧ (is_allowed st ip now maxRequests windowSeconds).1
          = decide ((cleanOld now windowSeconds (getIp st ip)).length < maxRequests)
      ∧ ((is_allowed st ip now maxRequests windowSeconds).1 = false →
          getIp (is_allowed st ip now maxRequests windowSeconds).2 ip
            = cleanOld now windowSeconds (getIp st ip))
      ∧ ((is_allowed st ip now maxRequests windowSeconds).1 = true →
          getIp (is_allowed st ip now maxRequests windowSeconds).2 ip
            = cleanOld now windowSeconds (getIp st ip) ++ [now]))
    ∧ (let r1 := is_allowed [] "ip1" 0 3 60
       let r2 := is_allowed r1.2 "ip1" 0 3 60
       let r3 := is_allowed r2.2 "ip1" 0 3 60
       let r4 := is_allowed r3.2 "ip1" 0 3 60
       let r5 := is_allowed r4.2 "ip1" 61 3 60
       r1.1 = true ∧ r2.1 = true ∧ r3.1 = true ∧ r4.1 = false ∧ r5.1 = true) := by
  constructor
  · intro st ip now maxRequests windowSeconds
    refine ⟨?_, ?_, ?_, ?_⟩
    · intro t ht
      simp [cleanOld, List.mem_filter, ht]
    · simp only [is_allowed, getIp_setIp]
      by_cases h : maxRequests ≤ (cleanOld now windowSeconds (getIp st ip)).length <;>
        simp [h] <;> omega
    · intro hfalse
      simp only [is_allowed, getIp_setIp] at hfalse ⊢
      by_cases h : maxRequests ≤ (cleanOld now windowSeconds (getIp st ip)).length
      · simp [h, getIp_setIp]
      · simp [h] at hfalse
    · intro htrue
      simp only [is_allowed, getIp_setIp] at htrue ⊢
      by_cases h : maxRequests ≤ (cleanOld now windowSeconds (getIp st ip)).length
      · simp [h] at htrue
      · simp [h, getIp_setIp]
  · decide

/-- Witness for C5: an accepted call (limit 2, one live timestamp) records
its own timestamp after the pruned sequence. -/
theorem is_allowed_spec_witness :
    getIp (is_allowed [] "ip1" 5 2 60).2 "ip1"
      = cleanOld 5 60 (getIp [] "ip1") ++ [5] :=
  (is_allowed_spec.1 [] "ip1" 5 2 60).2.2.2 (by decide)

/-- C6: when the file write of `save_upload` fails, the call raises
`ValueError` and no state in which the fresh id has a metadata entry was
ever observable; in every reader-visible state of a successful call, once
the metadata entry for the fresh id exists the fully written bytes are on
disk at the id-derived path, and the final state holds exactly the
inserted entry and the written file. -/
theorem save_upload_atomicity (st : FMState) (content : List Nat)
    (original : String) (fileId : String) (now : Int) (writeOk : Bool)
    (hfresh : lookupMeta st fileId = none) :
    (writeOk = false →
      save_upload st content original fileId now writeOk = .error .valueError
      ∧ saveUploadStates st content original fileId now writeOk = [st])
    ∧ (∀ s ∈ saveUploadStates st content original fileId now writeOk,
        (lookupMeta s fileId).isSome = true →
          lookupFs s (uploadPathOf fileId original) = some content)
    ∧ (writeOk = true →
        save_upload st content original fileId now writeOk
          = .ok (fileId,
              { metadata :=
                  metaInsert st.metadata fileId (uploadMeta content original fileId now),
                fs := fsWrite st.fs (uploadPathOf fileId original) content })) := by
  cases writeOk with
  | false =>
    refine ⟨fun _ => ⟨rfl, rfl⟩, ?_, fun h => by simp at h⟩
    intro s hs hsome
    simp [saveUploadStates] at hs
    subst hs
    rw [hfresh] at hsome
    simp at hsome
  | true =>
    refine ⟨fun h => by simp at h, ?_, fun _ => rfl⟩
    intro s hs hsome
    simp [saveUploadStates] at hs
    rcases hs with hs | hs | hs <;> subst hs
    · rw [hfresh] at hsome
      simp at hsome
    · rw [show lookupMeta { st with fs := fsWrite st.fs (uploadPathOf fileId original) content } fileId = lookupMeta st fileId from rfl, hfresh] at hsome
      simp at hsome
    · exact lookupFs_fsWrite st.fs (uploadPathOf fileId original) content

/-- Witness for C6: a failing write on the empty store raises and leaves
only the initial state observable. -/
theorem save_upload_atomicity_witness :
    save_upload ⟨[], []⟩ [1, 2] "a.pdf" "u1" 0 false = .error .valueError
    ∧ saveUploadStates ⟨[], []⟩ [1, 2] "a.pdf" "u1" 0 false = [⟨[], []⟩] :=
  (save_upload_atomicity ⟨[], []⟩ [1, 2] "a.pdf" "u1" 0 false rfl).1 rfl

/-- C7 (counterexample): the stored location is not independent of the
caller-supplied filename — with the same generated id, the names
`"a.txt"` and `"b.pdf"` produce different on-disk paths, because the
extension of the sanitized caller name is appended to the id. -/
theorem upload_path_depends_on_filename_cex :
    uploadPathOf "u" "a.txt" ≠ uploadPathOf "u" "b.pdf" := by decide

/-- C7 (amended): the on-disk location is the uploads namespace plus the
generated id plus the extension of the sanitized caller-supplied name
(defaulting to `".pdf"`); only that extension — never the rest of the
name — influences the location, and the extension can carry no path
separator, so the location stays inside the uploads namespace. -/
theorem upload_path_id_and_extension (fileId f g : String)
    (h : suffixOrPdf f = suffixOrPdf g) :
    uploadPathOf fileId f = uploadPathOf fileId g
    ∧ uploadPathOf fileId f = "uploads/" ++ fileId ++ suffixOrPdf f
    ∧ '/' ∉ (suffixOrPdf f).toList
    ∧ '\\' ∉ (suffixOrPdf f).toList := by
  refine ⟨by simp [uploadPathOf, h], rfl, ?_, ?_⟩
  · intro hx
    rcases suffixOrPdf_chars f '/' hx with h1 | h1
    · rcases mem_sanitizeList _ _ h1 with h2 | h2
      · exact sanitizeCore_no_slash _ h2
      · exact absurd h2 (by decide)
    · exact absurd h1 (by decide)
  · intro hx
    rcases suffixOrPdf_chars f '\\' hx with h1 | h1
    · rcases mem_sanitizeList _ _ h1 with h2 | h2
      · exact sanitizeCore_no_backslash _ h2
      · exact absurd h2 (by decide)
    · exact absurd h1 (by decide)

/-- Witness for C7's amended theorem: equal extensions give equal paths. -/
theorem upload_path_id_and_extension_witness :
    uploadPathOf "u" "a.txt" = uploadPathOf "u" "b.txt" :=
  (upload_path_id_and_extension "u" "a.txt" "b.txt" (by decide)).1

/-- C8 (counterexample): a live metadata entry whose file is missing from
disk is not indistinguishable from an unknown id — the former downloads
with status 404, the latter with status 500 (the store's not-found
`ValueError` is swallowed by the endpoint's blanket handler). -/
theorem download_status_distinguishable_cex :
    lookupMeta stGhost "f1" = some mDoc
    ∧ pathExists stGhost mDoc.path = false
    ∧ lookupMeta stGhost "zz" = none
    ∧ downloadStatus stGhost "f1" = 404
    ∧ downloadStatus stGhost "zz" = 500
    ∧ downloadStatus stGhost "f1" ≠ downloadStatus stGhost "zz" := by decide

/-- C8 (amended): a known id whose underlying file is missing fails the
download with 404 NotFound, while an unknown id fails with status 500
wrapping the store's not-found message — the two cases are distinguishable
by status code. -/
theorem download_notfound_statuses (st : FMState) (fileId : String) :
    (lookupMeta st fileId = none →
      download_file st fileId
        = .error (500, "Failed to download file: File not found: " ++ fileId))
    ∧ (∀ m, lookupMeta st fileId = some m → pathExists st m.path = false →
      download_file st fileId
        = .error (404, "File not found or has expired: " ++ fileId)) := by
  constructor
  · intro h
    simp [download_file, get_file_path, h]
  · intro m hm hp
    simp [download_file, get_file_path, hm, hp]

/-- Witness for C8's amended theorem on the ghost state. -/
theorem download_notfound_statuses_witness :
    download_file stGhost "zz"
      = .error (500, "Failed to download file: File not found: " ++ "zz")
    ∧ download_file stGhost "f1"
      = .error (404, "File not found or has expired: " ++ "f1") :=
  ⟨(download_notfound_statuses stGhost "zz").1 (by decide),
   (download_notfound_statuses stGhost "f1").2 mDoc (by decide) (by decide)⟩

/-- C9 (counterexample): stop is delivered while the loop task sleeps
(running, `pc = sleeping`, no sweeps yet); at the next wake the sweep body
still runs — the `while` condition was checked before the sleep — so the
sweep count reaches 1 after the wake, refuting "no further sweeps occur
from the next wake on". -/
theorem scheduler_stop_extra_sweep_cex :
    (schedStop ⟨true, .sleeping, 0⟩).is_running = false
    ∧ (loopRun 2 (schedStop ⟨true, .sleeping, 0⟩)).sweeps = 1 := by decide

/-- C9 (amended): starting while already running is a no-op; stop clears
the running flag, after which the loop task performs at most one further
sweep (the iteration already committed by the passed condition check),
reaches its final state within three steps, and stays there forever. -/
theorem scheduler_start_stop_lifecycle (s : SchedState) :
    (s.is_running = true → schedStart s = s)
    ∧ (schedStop s).is_running = false
    ∧ (s.is_running = false →
        (∀ n, (loopRun n s).sweeps ≤ s.sweeps + 1)
        ∧ (loopRun 3 s).pc = .done
        ∧ ∀ n, 3 ≤ n → loopRun n s = loopRun 3 s) := by
  refine ⟨fun h => by simp [schedStart, h], rfl,
    fun h => ⟨loopRun_sweeps_le s h, loopRun3_done s h, loopRun_stable s h⟩⟩

/-- Witness for C9's amended theorem: a running sleeping task ignores a
second start; a stopped sleeping task sweeps at most once and is done. -/
theorem scheduler_start_stop_lifecycle_witness :
    schedStart ⟨true, .sleeping, 0⟩ = ⟨true, .sleeping, 0⟩
    ∧ (loopRun 3 ⟨false, .sleeping, 0⟩).pc = .done
    ∧ loopRun 5 ⟨false, .sleeping, 0⟩ = loopRun 3 ⟨false, .sleeping, 0⟩ :=
  ⟨(scheduler_start_stop_lifecycle ⟨true, .sleeping, 0⟩).1 rfl,
   ((scheduler_start_stop_lifecycle ⟨false, .sleeping, 0⟩).2.2 rfl).2.1,
   ((scheduler_start_stop_lifecycle ⟨false, .sleeping, 0⟩).2.2 rfl).2.2 5 (by decide)⟩

/-- C10: `delete_file` returns the body's result when the body succeeds
and returns the pre-call state when the body raises — no exception ever
reaches the caller; in particular, when the unlink raises on a live entry
whose file exists, the state is unchanged and the metadata entry is still
in place for a later retry. -/
theorem delete_file_never_raises (st : FMState) (fileId : String) (fault : Bool) :
    (∀ e, deleteFileExc st fileId fault = .error e →
      delete_file st fileId fault = st)
    ∧ (∀ st', deleteFileExc st fileId fault = .ok st' →
      delete_file st fileId fault = st')
    ∧ (∀ m, lookupMeta st fileId = some m → pathExists st m.path = true →
      delete_file st fileId true = st
      ∧ lookupMeta (delete_file st fileId true) fileId = some m) := by
  refine ⟨?_, ?_, ?_⟩
  · intro e he
    simp [delete_file, he]
  · intro st' hok
    simp [delete_file, hok]
  · intro m hm hp
    have hh : delete_file st fileId true = st := by
      simp [delete_file, deleteFileExc, hm, hp]
    exact ⟨hh, by rw [hh]; exact hm⟩

/-- Witness for C10: a faulting unlink on the one-artifact store leaves
the state and the metadata entry untouched. -/
theorem delete_file_never_raises_witness :
    delete_file stOne "f1" true = stOne
    ∧ lookupMeta (delete_file stOne "f1" true) "f1" = some mDoc :=
  (delete_file_never_raises stOne "f1" true).2.2 mDoc (by decide) (by decide)


end VoicePdf
